import Mathlib

/-!
Verification of the chat-session persistence and lifecycle model of the
multi-chat application (`app.py`).  Strings are embedded as `List Char`,
timestamps as `Nat`, the chat-storage directory as a list of file entries,
and fallible operations (Python exceptions) as `Except Unit`.
-/

set_option autoImplicit false

abbrev Str := List Char

/-- A role-tagged chat message, as stored in the JSON `messages` array. -/
structure Message where
  role : Str
  content : Str
deriving DecidableEq

def roleUser : Str := "user".toList

def roleAssistant : Str := "assistant".toList

/-- The parsed content of one `chat_<id>.json` record. -/
structure ChatData where
  chat_id : Str
  title : Str
  messages : List Message
  created_at : Nat
  updated_at : Nat
deriving DecidableEq

/-- A stored file either parses to a `ChatData` or is corrupt JSON. -/
inductive FileContent where
  | good (data : ChatData)
  | corrupt
deriving DecidableEq

/-- One file in the chat-storage directory: its id (from the file name),
its content, and its filesystem modification time. -/
structure Entry where
  id : Str
  content : FileContent
  mtime : Nat
deriving DecidableEq

abbrev Store := List Entry

/-- The Streamlit session state relevant to the session model. -/
structure AppState where
  current_chat_id : Str
  messages : List Message
  chat_title : Str
deriving DecidableEq

/-! ### Title derivation (`save_chat` lines 57-65, chat handler lines 302-304) -/

def newChatTitle : Str := "New Chat".toList

def ellipsisStr : Str := "...".toList

/-- `content[:50] + ("..." if len(content) > 50 else "")` -/
def deriveTitle (content : Str) : Str :=
  content.take 50 ++ (if 50 < content.length then ellipsisStr else [])

def isUserMsg (m : Message) : Bool := m.role == roleUser

/-- Title resolution in `save_chat`: an explicit title wins; otherwise the
first `user` message yields a derived title; otherwise "New Chat". -/
def resolveTitle (title : Option Str) (msgs : List Message) : Str :=
  match title with
  | some t => t
  | none =>
    match msgs.find? isUserMsg with
    | some m => deriveTitle m.content
    | none => newChatTitle

/-! ### Sentinel-token cleanup (chat handler lines 328-348) -/

/-- Does `pat` start the string `s`? -/
def begins : Str → Str → Bool
  | [], _ => true
  | _ :: _, [] => false
  | p :: ps, c :: cs => p == c && begins ps cs

/-- Fueled left-to-right deletion of every (non-overlapping) occurrence of
`pat`, the semantics of Python `s.replace(pat, "")`.  The fuel is at least
the length of `s`, so the out-of-fuel branch is never taken. -/
def stripTokAux (pat : Str) : Nat → Str → Str
  | _, [] => []
  | 0, s => s
  | fuel + 1, c :: cs =>
    if begins pat (c :: cs) then stripTokAux pat fuel (List.drop pat.length (c :: cs))
    else c :: stripTokAux pat fuel cs

def stripTok (pat s : Str) : Str := stripTokAux pat s.length s

def tokS : Str := "<s>".toList

def tokImStart : Str := "<|im_start|>".toList

def tokImEnd : Str := "<|im_end|>".toList

def tokOut : Str := "<|OUT|>".toList

/-- The fixed set of sentinel markers the app removes. -/
def sentinelToks : List Str := [tokS, tokImStart, tokImEnd, tokOut]

/-- The four `replace(tok, '')` calls, in program order. -/
def cleanChunk (s : Str) : Str :=
  stripTok tokOut (stripTok tokImEnd (stripTok tokImStart (stripTok tokS s)))

/-- Python `str.strip()`: drop surrounding whitespace. -/
def trimStr (s : Str) : Str :=
  ((s.dropWhile Char.isWhitespace).reverse.dropWhile Char.isWhitespace).reverse

/-- The final cleanup of the accumulated reply (lines 342-348). -/
def finalClean (s : Str) : Str := trimStr (cleanChunk s)

/-- The streaming loop: each fragment is cleaned and appended. -/
def accumulateClean (frags : List Str) : Str :=
  frags.foldl (fun acc f => acc ++ cleanChunk f) []

/-- The text of the assistant message committed at the finish boundary. -/
def committedText (frags : List Str) : Str := finalClean (accumulateClean frags)

/-- Does `pat` occur as a contiguous substring of `s`? -/
def containsTok (pat : Str) : Str → Bool
  | [] => begins pat []
  | c :: cs => begins pat (c :: cs) || containsTok pat cs

/-- Text free of the character every sentinel marker starts with. -/
def noLT (s : Str) : Prop := ∀ c ∈ s, c ≠ '<'

instance (s : Str) : Decidable (noLT s) := by
  unfold noLT; infer_instance

/-! ### Session store operations (`app.py` lines 38-97) -/

/-- Look up the file `chat_<id>.json` in the storage directory. -/
def findEntry (s : Store) (id : Str) : Option Entry :=
  s.find? (fun e => e.id == id)

/-- Sort key of `get_all_chats`: newest modification time first. -/
def entGE (a b : Entry) : Prop := b.mtime ≤ a.mtime

instance : DecidableRel entGE := fun a b => inferInstanceAs (Decidable (b.mtime ≤ a.mtime))

instance : IsTotal Entry entGE := ⟨fun a b => Nat.le_total b.mtime a.mtime⟩

instance : IsTrans Entry entGE := ⟨fun _ _ _ hab hbc => Nat.le_trans hbc hab⟩

/-- `get_all_chats`: all chat files sorted by modification time, newest
first (lines 38-42). -/
def getAllChats (s : Store) : List Entry := List.insertionSort entGE s

/-- `load_chat` (lines 44-51): missing file yields `None`; an existing file
is parsed by `json.load`, which raises on corrupt content. -/
def loadChat (s : Store) (id : Str) : Except Unit (Option ChatData) :=
  match findEntry s id with
  | none => .ok none
  | some e =>
    match e.content with
    | .good d => .ok (some d)
    | .corrupt => .error ()

/-- The `created_at` value `save_chat` ends up storing. -/
def createdAtOf (s : Store) (id : Str) (now : Nat) : Nat :=
  match findEntry s id with
  | some e =>
    match e.content with
    | .good d => d.created_at
    | .corrupt => now
  | none => now

/-- `save_chat` (lines 53-82): resolve the title, build the record with
both timestamps set to now, re-read an existing file to preserve its
`created_at` (raising if that file is corrupt), then overwrite. -/
def saveChat (s : Store) (id : Str) (msgs : List Message) (title : Option Str) (now : Nat) :
    Except Unit Store :=
  let data : ChatData := ⟨id, resolveTitle title msgs, msgs, now, now⟩
  match findEntry s id with
  | none => .ok (s ++ [⟨id, .good data, now⟩])
  | some e =>
    match e.content with
    | .good old =>
      .ok (s.map (fun x =>
        if x.id == id then ⟨id, FileContent.good { data with created_at := old.created_at }, now⟩
        else x))
    | .corrupt => .error ()

/-- `Path.unlink`: removes the file, raising if it does not exist. -/
def unlinkFile (s : Store) (id : Str) : Except Unit Store :=
  match findEntry s id with
  | some _ => .ok (s.filter (fun e => !(e.id == id)))
  | none => .error ()

/-- `delete_chat` (lines 84-88): unlink guarded by an existence check. -/
def deleteChat (s : Store) (id : Str) : Except Unit Store :=
  if (findEntry s id).isSome then unlinkFile s id else .ok s

/-- Well-formed storage directory: file ids are distinct and every file
parses to a record whose `chat_id` field matches its file name. -/
def entryOK (e : Entry) : Bool :=
  match e.content with
  | .good d => d.chat_id == e.id
  | .corrupt => false

def WF (s : Store) : Prop := (s.map Entry.id).Nodup ∧ ∀ e ∈ s, entryOK e = true

instance (s : Store) : Decidable (WF s) := by
  unfold WF; infer_instance

/-! ### Controller flows (session-state handlers) -/

/-- The outcome of the streaming reply producer: either the full fragment
sequence, or the fragments consumed before the stream raised. -/
inductive StreamResult where
  | success (frags : List Str)
  | failure (fragsBeforeError : List Str)

/-- The auto-save block at the bottom of the script (lines 367-373):
re-save the active conversation whenever its message list is non-empty. -/
def autoSave (s : Store) (st : AppState) (now : Nat) : Except Unit Store :=
  if st.messages.isEmpty then .ok s
  else saveChat s st.current_chat_id st.messages (some st.chat_title) now

/-- The chat-input handler (lines 298-365) followed by the auto-save block:
append the user message, retitle on the first message, then on stream
success commit the cleaned reply and save (handler save at `now1`, auto-save
at `now2`); on stream failure the except-block saves nothing, leaving only
the auto-save of the user message. -/
def chatTurn (s : Store) (st : AppState) (prompt : Str) (stream : StreamResult)
    (now1 now2 : Nat) : Except Unit (Store × AppState) :=
  let msgs1 := st.messages ++ [⟨roleUser, prompt⟩]
  let title1 := if msgs1.length = 1 then deriveTitle prompt else st.chat_title
  let st1 : AppState := ⟨st.current_chat_id, msgs1, title1⟩
  match stream with
  | .failure _ =>
    match autoSave s st1 now2 with
    | .ok s' => .ok (s', st1)
    | .error e => .error e
  | .success frags =>
    let msgs2 := msgs1 ++ [⟨roleAssistant, committedText frags⟩]
    let st2 : AppState := ⟨st.current_chat_id, msgs2, title1⟩
    match saveChat s st.current_chat_id msgs2 (some title1) now1 with
    | .error e => .error e
    | .ok sMid =>
      match autoSave sMid st2 now2 with
      | .ok s' => .ok (s', st2)
      | .error e => .error e

/-- The Clear Current Chat handler (lines 230-235): empty the working list,
reset the title, and save the empty conversation immediately. -/
def clearHandler (s : Store) (st : AppState) (now : Nat) : Except Unit (Store × AppState) :=
  match saveChat s st.current_chat_id [] (some newChatTitle) now with
  | .ok s' => .ok (s', ⟨st.current_chat_id, [], newChatTitle⟩)
  | .error e => .error e

/-- The delete button handler (lines 201-218): delete the file; if the
deleted chat was active, load the most recent remaining chat (head of the
render-time sorted list minus the deleted id), or create a fresh empty
conversation when none remain.  Subscripting a `None` load raises. -/
def deleteHandler (s : Store) (st : AppState) (target : Str) (freshId : Str) :
    Except Unit (Store × AppState) :=
  let allChats := getAllChats s
  match deleteChat s target with
  | .error e => .error e
  | .ok s' =>
    if target == st.current_chat_id then
      match allChats.filter (fun e => !(e.id == target)) with
      | [] => .ok (s', ⟨freshId, [], newChatTitle⟩)
      | e :: _ =>
        match loadChat s' e.id with
        | .ok (some d) => .ok (s', ⟨d.chat_id, d.messages, d.title⟩)
        | .ok none => .error ()
        | .error u => .error u
    else .ok (s', st)

/-- Session-state initialization (lines 104-115): load the most recent
chat if any exist, otherwise start a fresh empty conversation.
Subscripting a `None` load, or a corrupt most-recent record, raises. -/
def initSession (s : Store) (freshId : Str) : Except Unit AppState :=
  match getAllChats s with
  | [] => .ok ⟨freshId, [], newChatTitle⟩
  | e :: _ =>
    match loadChat s e.id with
    | .ok (some d) => .ok ⟨d.chat_id, d.messages, d.title⟩
    | .ok none => .error ()
    | .error u => .error u

/-! ### Concrete sample data used by the witness theorems -/

def wIdA : Str := "a".toList

def wIdB : Str := "b".toList

def wMsgs : List Message := [⟨roleUser, "hi".toList⟩]

def wDataA : ChatData := ⟨wIdA, "T".toList, wMsgs, 1, 1⟩

def wEntryA : Entry := ⟨wIdA, .good wDataA, 1⟩

def wDataB : ChatData := ⟨wIdB, "U".toList, [], 2, 2⟩

def wEntryB : Entry := ⟨wIdB, .good wDataB, 2⟩

def wStore : Store := [wEntryA]

def wStore2 : Store := [wEntryA, wEntryB]

def wState : AppState := ⟨wIdA, wMsgs, "T".toList⟩

def wCorruptStore : Store := [⟨"x".toList, .corrupt, 5⟩]

/-- The record a successful `save_chat` leaves on disk. -/
def savedData (s : Store) (id : Str) (msgs : List Message) (title : Option Str) (now : Nat) :
    ChatData :=
  ⟨id, resolveTitle title msgs, msgs, createdAtOf s id now, now⟩

/-- The file entry a successful `save_chat` leaves on disk. -/
def savedEntry (s : Store) (id : Str) (msgs : List Message) (title : Option Str) (now : Nat) :
    Entry :=
  ⟨id, .good (savedData s id msgs title now), now⟩

/-- The storage directory after removing the file of a given id. -/
def eraseStore (s : Store) (id : Str) : Store := s.filter (fun e => !(e.id == id))

/-! ### Helper lemmas: the `begins` matcher -/

theorem begins_append_self (l t : Str) : begins l (l ++ t) = true := by
  induction l with
  | nil => rfl
  | cons c cs ih => simp [begins, ih]

theorem begins_head_false {p c : Char} (ps cs : Str) (h : c ≠ p) :
    begins (p :: ps) (c :: cs) = false := by
  have hpc : (p == c) = false := beq_eq_false_iff_ne.mpr (fun hh => h hh.symm)
  simp [begins, hpc]

theorem begins_append_cases (b : Str) :
    ∀ (m q : Str), begins q (m ++ b) = true → begins q m = true ∨ begins m q = true := by
  intro m
  induction m with
  | nil => intro q _; right; rfl
  | cons x xs ih =>
    intro q h
    match q with
    | [] => left; rfl
    | y :: ys =>
      rw [List.cons_append] at h
      simp only [begins, Bool.and_eq_true] at h
      obtain ⟨hyx, hrest⟩ := h
      have hy : y = x := eq_of_beq hyx
      subst hy
      rcases ih ys hrest with h1 | h1
      · left; simp [begins, h1]
      · right; simp [begins, h1]

/-! ### Helper lemmas: token stripping -/

theorem noLT_append {a b : Str} (ha : noLT a) (hb : noLT b) : noLT (a ++ b) := by
  intro c hc
  rcases List.mem_append.mp hc with h | h
  · exact ha c h
  · exact hb c h

theorem noLT_cons_tail {c : Char} {cs : Str} (h : noLT (c :: cs)) : noLT cs :=
  fun x hx => h x (List.mem_cons_of_mem c hx)

theorem stripTokAux_noLT (ps : Str) :
    ∀ (fuel : Nat) (s : Str), s.length ≤ fuel → noLT s → stripTokAux ('<' :: ps) fuel s = s := by
  intro fuel
  induction fuel with
  | zero =>
    intro s hs _
    have hnil : s = [] := List.eq_nil_of_length_eq_zero (Nat.le_zero.mp hs)
    subst hnil; rfl
  | succ n ih =>
    intro s hs hno
    match s with
    | [] => rfl
    | c :: cs =>
      have hc : c ≠ '<' := hno c (List.mem_cons_self c cs)
      have hb : begins ('<' :: ps) (c :: cs) = false := begins_head_false ps cs hc
      have hlen : cs.length ≤ n := by simp at hs; omega
      simp only [stripTokAux, hb, Bool.false_eq_true, if_false]
      rw [ih cs hlen (noLT_cons_tail hno)]

theorem stripTok_noLT (ps : Str) {s : Str} (hs : noLT s) : stripTok ('<' :: ps) s = s :=
  stripTokAux_noLT ps s.length s (Nat.le_refl _) hs

theorem stripTokAux_remove (ps : Str) :
    ∀ (fuel : Nat) (a b : Str), (a ++ ('<' :: ps) ++ b).length ≤ fuel → noLT a → noLT b →
      stripTokAux ('<' :: ps) fuel (a ++ ('<' :: ps) ++ b) = a ++ b := by
  intro fuel
  induction fuel with
  | zero =>
    intro a b hlen _ _
    exfalso
    simp [List.length_append] at hlen
  | succ n ih =>
    intro a b hlen ha hb
    match a with
    | [] =>
      rw [List.nil_append, List.nil_append, List.cons_append]
      have hbeg : begins ('<' :: ps) ('<' :: (ps ++ b)) = true := by
        have h0 := begins_append_self ('<' :: ps) b
        rwa [List.cons_append] at h0
      simp only [stripTokAux, hbeg, if_true]
      have hdrop : List.drop ('<' :: ps).length ('<' :: (ps ++ b)) = b := by
        have h1 : ('<' :: ps).length = ps.length + 1 := by simp
        rw [h1, List.drop_succ_cons]
        exact List.drop_left ps b
      rw [hdrop]
      have hlen2 : b.length ≤ n := by simp [List.length_append] at hlen; omega
      exact stripTokAux_noLT ps n b hlen2 hb
    | c :: a' =>
      have hc : c ≠ '<' := ha c (List.mem_cons_self _ _)
      rw [List.cons_append, List.cons_append, List.cons_append]
      have hbf : begins ('<' :: ps) (c :: (a' ++ ('<' :: ps) ++ b)) = false :=
        begins_head_false _ _ hc
      simp only [stripTokAux, hbf, Bool.false_eq_true, if_false]
      have hlen2 : (a' ++ ('<' :: ps) ++ b).length ≤ n := by
        simp [List.length_append] at hlen ⊢; omega
      rw [ih a' b hlen2 (noLT_cons_tail ha) hb]

theorem stripTok_remove (ps : Str) {a b : Str} (ha : noLT a) (hb : noLT b) :
    stripTok ('<' :: ps) (a ++ ('<' :: ps) ++ b) = a ++ b :=
  stripTokAux_remove ps _ a b (Nat.le_refl _) ha hb

theorem stripTokAux_pass (qs ms : Str) (hms : noLT ms)
    (h1 : begins ('<' :: qs) ('<' :: ms) = false) (h2 : begins ('<' :: ms) ('<' :: qs) = false) :
    ∀ (fuel : Nat) (a b : Str), (a ++ ('<' :: ms) ++ b).length ≤ fuel → noLT a → noLT b →
      stripTokAux ('<' :: qs) fuel (a ++ ('<' :: ms) ++ b) = a ++ ('<' :: ms) ++ b := by
  intro fuel
  induction fuel with
  | zero =>
    intro a b hlen _ _
    exfalso
    simp [List.length_append] at hlen
  | succ n ih =>
    intro a b hlen ha hb
    match a with
    | [] =>
      show stripTokAux ('<' :: qs) (n + 1) ('<' :: (ms ++ b)) = '<' :: (ms ++ b)
      have hbf : begins ('<' :: qs) ('<' :: (ms ++ b)) = false := by
        cases hq : begins qs (ms ++ b) with
        | false => simp [begins, hq]
        | true =>
          exfalso
          rcases begins_append_cases b ms qs hq with hcase | hcase
          · have : begins ('<' :: qs) ('<' :: ms) = true := by simp [begins, hcase]
            rw [h1] at this; exact Bool.false_ne_true this
          · have : begins ('<' :: ms) ('<' :: qs) = true := by simp [begins, hcase]
            rw [h2] at this; exact Bool.false_ne_true this
      simp only [stripTokAux, hbf, Bool.false_eq_true, if_false]
      have hlen2 : (ms ++ b).length ≤ n := by simp [List.length_append] at hlen ⊢; omega
      rw [stripTokAux_noLT qs n (ms ++ b) hlen2 (noLT_append hms hb)]
    | c :: a' =>
      have hc : c ≠ '<' := ha c (List.mem_cons_self _ _)
      rw [List.cons_append, List.cons_append]
      have hbf : begins ('<' :: qs) (c :: (a' ++ ('<' :: ms) ++ b)) = false :=
        begins_head_false _ _ hc
      simp only [stripTokAux, hbf, Bool.false_eq_true, if_false]
      have hlen2 : (a' ++ ('<' :: ms) ++ b).length ≤ n := by
        simp [List.length_append] at hlen ⊢; omega
      rw [ih a' b hlen2 (noLT_cons_tail ha) hb]

theorem stripTok_pass (qs ms : Str) {a b : Str} (hms : noLT ms)
    (h1 : begins ('<' :: qs) ('<' :: ms) = false) (h2 : begins ('<' :: ms) ('<' :: qs) = false)
    (ha : noLT a) (hb : noLT b) :
    stripTok ('<' :: qs) (a ++ ('<' :: ms) ++ b) = a ++ ('<' :: ms) ++ b :=
  stripTokAux_pass qs ms hms h1 h2 _ a b (Nat.le_refl _) ha hb

theorem tokS_cons : tokS = '<' :: ['s', '>'] := rfl

theorem tokImStart_cons : tokImStart = '<' :: ['|', 'i', 'm', '_', 's', 't', 'a', 'r', 't', '|', '>'] := rfl

theorem tokImEnd_cons : tokImEnd = '<' :: ['|', 'i', 'm', '_', 'e', 'n', 'd', '|', '>'] := rfl

theorem tokOut_cons : tokOut = '<' :: ['|', 'O', 'U', 'T', '|', '>'] := rfl

theorem cleanChunk_noLT {s : Str} (hs : noLT s) : cleanChunk s = s := by
  unfold cleanChunk
  rw [tokS_cons, tokImStart_cons, tokImEnd_cons, tokOut_cons]
  rw [stripTok_noLT _ hs, stripTok_noLT _ hs, stripTok_noLT _ hs, stripTok_noLT _ hs]

theorem cleanChunk_single {a b : Str} (m : Str) (hm : m ∈ sentinelToks)
    (ha : noLT a) (hb : noLT b) : cleanChunk (a ++ m ++ b) = a ++ b := by
  have hab : noLT (a ++ b) := noLT_append ha hb
  simp only [sentinelToks, List.mem_cons, List.not_mem_nil, or_false] at hm
  rcases hm with rfl | rfl | rfl | rfl
  · unfold cleanChunk
    rw [tokS_cons, tokImStart_cons, tokImEnd_cons, tokOut_cons]
    rw [stripTok_remove _ ha hb, stripTok_noLT _ hab, stripTok_noLT _ hab, stripTok_noLT _ hab]
  · unfold cleanChunk
    rw [tokS_cons, tokImStart_cons, tokImEnd_cons, tokOut_cons]
    rw [stripTok_pass _ _ (by decide) (by decide) (by decide) ha hb]
    rw [stripTok_remove _ ha hb, stripTok_noLT _ hab, stripTok_noLT _ hab]
  · unfold cleanChunk
    rw [tokS_cons, tokImStart_cons, tokImEnd_cons, tokOut_cons]
    rw [stripTok_pass _ _ (by decide) (by decide) (by decide) ha hb]
    rw [stripTok_pass _ _ (by decide) (by decide) (by decide) ha hb]
    rw [stripTok_remove _ ha hb, stripTok_noLT _ hab]
  · unfold cleanChunk
    rw [tokS_cons, tokImStart_cons, tokImEnd_cons, tokOut_cons]
    rw [stripTok_pass _ _ (by decide) (by decide) (by decide) ha hb]
    rw [stripTok_pass _ _ (by decide) (by decide) (by decide) ha hb]
    rw [stripTok_pass _ _ (by decide) (by decide) (by decide) ha hb]
    rw [stripTok_remove _ ha hb]

theorem mem_of_mem_trimStr {c : Char} {s : Str} (h : c ∈ trimStr s) : c ∈ s := by
  unfold trimStr at h
  rw [List.mem_reverse] at h
  have h2 := (List.dropWhile_sublist _).subset h
  rw [List.mem_reverse] at h2
  exact (List.dropWhile_sublist _).subset h2

theorem noLT_trimStr {s : Str} (hs : noLT s) : noLT (trimStr s) :=
  fun c hc => hs c (mem_of_mem_trimStr hc)

theorem containsTok_eq_false (ps : Str) : ∀ (s : Str), noLT s → containsTok ('<' :: ps) s = false := by
  intro s
  induction s with
  | nil => intro _; rfl
  | cons c cs ih =>
    intro h
    have hc : c ≠ '<' := h c (List.mem_cons_self c cs)
    simp [containsTok, begins_head_false ps cs hc, ih (noLT_cons_tail h)]

/-! ### Helper lemmas: the store -/

theorem findEntry_mem_id {s : Store} {id : Str} {e : Entry} (h : findEntry s id = some e) :
    e ∈ s ∧ e.id = id := by
  unfold findEntry at h
  refine ⟨List.mem_of_find?_eq_some h, ?_⟩
  have hp := List.find?_some h
  simp only [beq_iff_eq] at hp
  exact hp

theorem findEntry_eq_none_iff {s : Store} {id : Str} :
    findEntry s id = none ↔ ∀ e ∈ s, e.id ≠ id := by
  unfold findEntry
  rw [List.find?_eq_none]
  simp [beq_iff_eq]

theorem findEntry_self {s : Store} (hnd : (s.map Entry.id).Nodup) {e : Entry} (he : e ∈ s) :
    findEntry s e.id = some e := by
  induction s with
  | nil => cases he
  | cons x t ih =>
    have hnd' := hnd
    rw [List.map_cons, List.nodup_cons] at hnd'
    obtain ⟨hnotin, hndt⟩ := hnd'
    rcases List.mem_cons.mp he with rfl | ht
    · unfold findEntry
      exact List.find?_cons_of_pos _ (by simp)
    · have hx : (x.id == e.id) = false := by
        apply beq_eq_false_iff_ne.mpr
        intro hEq
        exact hnotin (hEq ▸ List.mem_map_of_mem Entry.id ht)
      have hstep : findEntry (x :: t) e.id = findEntry t e.id := by
        unfold findEntry
        exact List.find?_cons_of_neg _ (by simp [hx])
      rw [hstep]
      exact ih hndt ht

theorem entry_unique {s : Store} (hnd : (s.map Entry.id).Nodup) {x y : Entry}
    (hx : x ∈ s) (hy : y ∈ s) (hid : x.id = y.id) : x = y := by
  have h1 := findEntry_self hnd hx
  have h2 := findEntry_self hnd hy
  rw [hid] at h1
  exact Option.some.inj (h1.symm.trans h2)

theorem WF_good {s : Store} (hWF : WF s) {e : Entry} (he : e ∈ s) :
    ∃ d, e.content = .good d ∧ d.chat_id = e.id := by
  have h := hWF.2 e he
  unfold entryOK at h
  match hc : e.content with
  | .good d =>
    rw [hc] at h
    exact ⟨d, rfl, eq_of_beq h⟩
  | .corrupt => rw [hc] at h; cases h

theorem createdAtOf_none {s : Store} {id : Str} {now : Nat} (h : findEntry s id = none) :
    createdAtOf s id now = now := by
  unfold createdAtOf
  rw [h]

theorem createdAtOf_good {s : Store} {id : Str} {now : Nat} {e : Entry} {d : ChatData}
    (h : findEntry s id = some e) (hd : e.content = .good d) :
    createdAtOf s id now = d.created_at := by
  simp [createdAtOf, h, hd]

theorem findEntry_map_ite (id : Str) (n : Entry) (hnid : n.id = id) :
    ∀ (s : Store), findEntry (s.map (fun x => if x.id == id then n else x)) id =
      (findEntry s id).map (fun _ => n) := by
  intro s
  induction s with
  | nil => rfl
  | cons x t ih =>
    simp only [findEntry] at ih ⊢
    rw [List.map_cons]
    by_cases hx : (x.id == id) = true
    · have hxe : x.id = id := eq_of_beq hx
      simp [List.find?_cons, hx, hnid, hxe]
    · have hxb : (x.id == id) = false := by
        cases hv : (x.id == id) with
        | true => exact absurd hv hx
        | false => rfl
      simp only [List.find?_cons, hxb, Bool.false_eq_true, if_false]
      exact ih

theorem map_id_update (s : Store) (id : Str) (n : Entry) (hnid : n.id = id) :
    List.map Entry.id (s.map (fun x => if x.id == id then n else x)) = List.map Entry.id s := by
  rw [List.map_map]
  apply List.map_congr_left
  intro x _
  by_cases hx : (x.id == id) = true
  · simp only [Function.comp, if_pos hx]
    rw [hnid, eq_of_beq hx]
  · simp only [Function.comp, if_neg hx]

theorem saveChat_ok {s : Store} (hWF : WF s) (id : Str) (msgs : List Message)
    (title : Option Str) (now : Nat) :
    ∃ s', saveChat s id msgs title now = .ok s'
      ∧ WF s'
      ∧ findEntry s' id = some (savedEntry s id msgs title now)
      ∧ ∀ e, e ∈ s' ↔ ((e ∈ s ∧ e.id ≠ id) ∨ e = savedEntry s id msgs title now) := by
  obtain ⟨hnd, hok⟩ := hWF
  cases hfind : findEntry s id with
  | none =>
    have hnotid : ∀ e ∈ s, e.id ≠ id := findEntry_eq_none_iff.mp hfind
    refine ⟨s ++ [savedEntry s id msgs title now], ?_, ⟨?_, ?_⟩, ?_, ?_⟩
    · simp [saveChat, hfind, savedEntry, savedData, createdAtOf]
    · rw [List.map_append, List.nodup_append]
      refine ⟨hnd, by simp, ?_⟩
      intro a ha
      simp only [List.mem_map] at ha
      obtain ⟨e, he, rfl⟩ := ha
      simp [savedEntry, hnotid e he]
    · intro e he
      rcases List.mem_append.mp he with h | h
      · exact hok e h
      · simp only [List.mem_singleton] at h
        subst h
        simp [entryOK, savedEntry, savedData]
    · unfold findEntry
      rw [List.find?_append]
      have h1 : List.find? (fun e => e.id == id) s = none := hfind
      rw [h1]
      simp [savedEntry]
    · intro e
      rw [List.mem_append, List.mem_singleton]
      constructor
      · rintro (h | h)
        · exact Or.inl ⟨h, hnotid e h⟩
        · exact Or.inr h
      · rintro (⟨h, _⟩ | h)
        · exact Or.inl h
        · exact Or.inr h
  | some e0 =>
    obtain ⟨he0mem, he0id⟩ := findEntry_mem_id hfind
    obtain ⟨d0, hd0, _⟩ := WF_good ⟨hnd, hok⟩ he0mem
    have hca : createdAtOf s id now = d0.created_at := createdAtOf_good hfind hd0
    have hnid : (savedEntry s id msgs title now).id = id := rfl
    refine ⟨s.map (fun x => if x.id == id then savedEntry s id msgs title now else x),
      ?_, ⟨?_, ?_⟩, ?_, ?_⟩
    · simp only [saveChat, hfind, hd0]
      simp [savedEntry, savedData, hca]
    · rw [map_id_update s id _ hnid]
      exact hnd
    · intro e he
      simp only [List.mem_map] at he
      obtain ⟨x, hx, rfl⟩ := he
      by_cases hxid : (x.id == id) = true
      · simp only [if_pos hxid]
        simp [entryOK, savedEntry, savedData]
      · simp only [if_neg hxid]
        exact hok x hx
    · rw [findEntry_map_ite id _ hnid s, hfind]
      rfl
    · intro e
      simp only [List.mem_map]
      constructor
      · rintro ⟨x, hx, rfl⟩
        by_cases hxid : (x.id == id) = true
        · rw [if_pos hxid]
          exact Or.inr rfl
        · simp only [if_neg hxid]
          exact Or.inl ⟨hx, by simpa [beq_eq_false_iff_ne] using hxid⟩
      · rintro (⟨he, hne⟩ | rfl)
        · refine ⟨e, he, ?_⟩
          rw [if_neg (by simpa [beq_eq_false_iff_ne] using hne)]
        · refine ⟨e0, he0mem, ?_⟩
          rw [if_pos (by simp [he0id])]

theorem loadChat_of_findEntry_good {s : Store} {id : Str} {e : Entry} {d : ChatData}
    (h : findEntry s id = some e) (hd : e.content = .good d) : loadChat s id = .ok (some d) := by
  simp [loadChat, h, hd]

theorem isEmpty_false_of_ne_nil {α : Type} {l : List α} (h : l ≠ []) : l.isEmpty = false := by
  cases l with
  | nil => exact absurd rfl h
  | cons a t => rfl

theorem autoSave_eq {s : Store} {st : AppState} {now : Nat} (hne : st.messages ≠ []) :
    autoSave s st now = saveChat s st.current_chat_id st.messages (some st.chat_title) now := by
  unfold autoSave
  rw [isEmpty_false_of_ne_nil hne]
  rfl

theorem eraseStore_of_absent {s : Store} {id : Str} (hfind : findEntry s id = none) :
    eraseStore s id = s := by
  unfold eraseStore
  apply List.filter_eq_self.mpr
  intro a ha
  simp [beq_eq_false_iff_ne.mpr (findEntry_eq_none_iff.mp hfind a ha)]

theorem deleteChat_eq (s : Store) (id : Str) : deleteChat s id = .ok (eraseStore s id) := by
  cases hfind : findEntry s id with
  | some e => simp [deleteChat, unlinkFile, hfind, eraseStore]
  | none => simp [deleteChat, hfind, eraseStore_of_absent hfind]

theorem WF_eraseStore {s : Store} (hWF : WF s) (id : Str) : WF (eraseStore s id) := by
  obtain ⟨hnd, hok⟩ := hWF
  constructor
  · exact List.Nodup.sublist (List.Sublist.map Entry.id (List.filter_sublist s)) hnd
  · intro e he
    exact hok e (List.mem_filter.mp he).1

theorem findEntry_eraseStore_self (s : Store) (id : Str) :
    findEntry (eraseStore s id) id = none := by
  apply findEntry_eq_none_iff.mpr
  intro e he
  have := (List.mem_filter.mp he).2
  simpa [beq_eq_false_iff_ne] using this

theorem getAllChats_perm (s : Store) : (getAllChats s).Perm s :=
  List.perm_insertionSort entGE s

theorem getAllChats_sorted (s : Store) : (getAllChats s).Sorted entGE :=
  List.sorted_insertionSort entGE s

theorem mem_getAllChats {s : Store} {e : Entry} : e ∈ getAllChats s ↔ e ∈ s :=
  List.mem_insertionSort entGE

/-! ### Claim theorems -/

/-- C1: for every conversation id, message list, and optional title, loading
immediately after saving returns a record whose id, title (as resolved by
`save_chat`), and messages equal those saved, whose `updated_at` is the save
time, and whose `created_at` is the pre-existing record's `created_at` when
one existed at that id, and the save time otherwise. -/
theorem C1_save_load_roundtrip (s : Store) (id : Str) (msgs : List Message) (title : Option Str)
    (now : Nat) (hWF : WF s) :
    ∃ s' d, saveChat s id msgs title now = .ok s'
      ∧ loadChat s' id = .ok (some d)
      ∧ d.chat_id = id ∧ d.title = resolveTitle title msgs ∧ d.messages = msgs
      ∧ d.updated_at = now
      ∧ (findEntry s id = none → d.created_at = now)
      ∧ (∀ e old, findEntry s id = some e → e.content = .good old →
          d.created_at = old.created_at) := by
  obtain ⟨s', hsave, hWF', hfind', hmem⟩ := saveChat_ok hWF id msgs title now
  refine ⟨s', savedData s id msgs title now, hsave,
    loadChat_of_findEntry_good hfind' rfl, rfl, rfl, rfl, rfl, ?_, ?_⟩
  · intro h
    show createdAtOf s id now = now
    exact createdAtOf_none h
  · intro e old he hc
    show createdAtOf s id now = old.created_at
    exact createdAtOf_good he hc

/-- Witness for C1 at a concrete store holding a record at the saved id. -/
theorem C1_save_load_roundtrip_witness :
    WF wStore ∧
    ∃ s' d, saveChat wStore wIdA [] none 7 = .ok s'
      ∧ loadChat s' wIdA = .ok (some d)
      ∧ d.chat_id = wIdA ∧ d.title = resolveTitle none [] ∧ d.messages = []
      ∧ d.updated_at = 7
      ∧ (findEntry wStore wIdA = none → d.created_at = 7)
      ∧ (∀ e old, findEntry wStore wIdA = some e → e.content = .good old →
          d.created_at = old.created_at) :=
  ⟨by decide, C1_save_load_roundtrip wStore wIdA [] none 7 (by decide)⟩

/-- C4: saving with the title omitted stores, when a first user-role message
with content of length L exists, its first min(L, 50) characters followed by
an ellipsis marker exactly when L > 50; with no user-role message, the fixed
placeholder "New Chat". -/
theorem C4_auto_title (s : Store) (id : Str) (msgs : List Message) (now : Nat) (hWF : WF s) :
    ∃ s' d, saveChat s id msgs none now = .ok s'
      ∧ loadChat s' id = .ok (some d)
      ∧ (∀ m, msgs.find? isUserMsg = some m →
          d.title = m.content.take (min 50 m.content.length)
            ++ (if 50 < m.content.length then ellipsisStr else []))
      ∧ (msgs.find? isUserMsg = none → d.title = newChatTitle) := by
  obtain ⟨s', hsave, hWF', hfind', hmem⟩ := saveChat_ok hWF id msgs none now
  refine ⟨s', savedData s id msgs none now, hsave,
    loadChat_of_findEntry_good hfind' rfl, ?_, ?_⟩
  · intro m hm
    have htake : m.content.take 50 = m.content.take (min 50 m.content.length) := by
      rcases Nat.le_total 50 m.content.length with h | h
      · rw [Nat.min_eq_left h]
      · rw [Nat.min_eq_right h, List.take_of_length_le h, List.take_length]
    show resolveTitle none msgs = _
    simp only [resolveTitle, hm, deriveTitle]
    rw [htake]
  · intro h
    show resolveTitle none msgs = newChatTitle
    simp only [resolveTitle, h]

/-- Witness for C4: a store and a message list whose first user message is
short, plus the no-user-message side for the same store. -/
theorem C4_auto_title_witness :
    WF wStore ∧
    ∃ s' d, saveChat wStore wIdB wMsgs none 9 = .ok s'
      ∧ loadChat s' wIdB = .ok (some d)
      ∧ (∀ m, wMsgs.find? isUserMsg = some m →
          d.title = m.content.take (min 50 m.content.length)
            ++ (if 50 < m.content.length then ellipsisStr else []))
      ∧ (wMsgs.find? isUserMsg = none → d.title = newChatTitle) :=
  ⟨by decide, C4_auto_title wStore wIdB wMsgs 9 (by decide)⟩

/-- C7: clearing the active conversation persists immediately a record with
an empty message list and the placeholder title, retrievable via load right
after; the save of the empty list is performed, leaving a fresh entry. -/
theorem C7_clear_persists (s : Store) (st : AppState) (now : Nat) (hWF : WF s)
    (_hne : st.messages ≠ []) :
    ∃ s' st2 d, clearHandler s st now = .ok (s', st2)
      ∧ loadChat s' st.current_chat_id = .ok (some d)
      ∧ d.messages = [] ∧ d.title = newChatTitle
      ∧ findEntry s' st.current_chat_id = some ⟨st.current_chat_id, .good d, now⟩
      ∧ st2.messages = [] ∧ st2.chat_title = newChatTitle := by
  obtain ⟨s', hsave, hWF', hfind', hmem⟩ :=
    saveChat_ok hWF st.current_chat_id [] (some newChatTitle) now
  refine ⟨s', ⟨st.current_chat_id, [], newChatTitle⟩,
    savedData s st.current_chat_id [] (some newChatTitle) now, ?_,
    loadChat_of_findEntry_good hfind' rfl, rfl, rfl, hfind', rfl, rfl⟩
  unfold clearHandler
  rw [hsave]

/-- Witness for C7 at a concrete active conversation with one message. -/
theorem C7_clear_persists_witness :
    WF wStore ∧ wState.messages ≠ [] ∧
    ∃ s' st2 d, clearHandler wStore wState 11 = .ok (s', st2)
      ∧ loadChat s' wState.current_chat_id = .ok (some d)
      ∧ d.messages = [] ∧ d.title = newChatTitle
      ∧ findEntry s' wState.current_chat_id = some ⟨wState.current_chat_id, .good d, 11⟩
      ∧ st2.messages = [] ∧ st2.chat_title = newChatTitle :=
  ⟨by decide, by decide, C7_clear_persists wStore wState 11 (by decide) (by decide)⟩

/-- C9: deleting twice in a row never produces an error: the first call
removes the durable record and the second call finds nothing to unlink and
returns without failure, leaving the store unchanged. -/
theorem C9_delete_twice (s : Store) (id : Str) :
    ∃ s1, deleteChat s id = .ok s1
      ∧ findEntry s1 id = none
      ∧ deleteChat s1 id = .ok s1 := by
  refine ⟨eraseStore s id, deleteChat_eq s id, findEntry_eraseStore_self s id, ?_⟩
  rw [deleteChat_eq, eraseStore_of_absent (findEntry_eraseStore_self s id)]

/-- C2: when the streaming producer fails after any number of fragments, the
turn ends with the persisted record of the active conversation holding only
the appended user message — zero new assistant-role messages for that turn. -/
theorem C2_stream_failure_no_commit (s : Store) (st : AppState) (prompt : Str)
    (pre : List Str) (now1 now2 : Nat) (hWF : WF s) :
    ∃ s' st2 d, chatTurn s st prompt (.failure pre) now1 now2 = .ok (s', st2)
      ∧ loadChat s' st.current_chat_id = .ok (some d)
      ∧ d.messages = st.messages ++ [Message.mk roleUser prompt]
      ∧ d.messages.countP (fun m => m.role == roleAssistant)
          = st.messages.countP (fun m => m.role == roleAssistant) := by
  obtain ⟨s', hsave, hWF', hfind', hmem⟩ :=
    saveChat_ok hWF st.current_chat_id (st.messages ++ [Message.mk roleUser prompt])
      (some (if (st.messages ++ [Message.mk roleUser prompt]).length = 1 then deriveTitle prompt
        else st.chat_title)) now2
  have hauto : autoSave s
      (AppState.mk st.current_chat_id (st.messages ++ [Message.mk roleUser prompt])
        (if (st.messages ++ [Message.mk roleUser prompt]).length = 1 then deriveTitle prompt
        else st.chat_title)) now2 = .ok s' := by
    rw [autoSave_eq (by simp)]
    exact hsave
  refine ⟨s',
    AppState.mk st.current_chat_id (st.messages ++ [Message.mk roleUser prompt])
      (if (st.messages ++ [Message.mk roleUser prompt]).length = 1 then deriveTitle prompt
      else st.chat_title),
    savedData s st.current_chat_id (st.messages ++ [Message.mk roleUser prompt])
      (some (if (st.messages ++ [Message.mk roleUser prompt]).length = 1 then deriveTitle prompt
        else st.chat_title)) now2,
    ?_, loadChat_of_findEntry_good hfind' rfl, rfl, ?_⟩
  · simp only [chatTurn, hauto]
  · have hrole : (roleUser == roleAssistant) = false := by decide
    show (st.messages ++ [Message.mk roleUser prompt]).countP (fun m => m.role == roleAssistant) = _
    rw [List.countP_append]
    simp [List.countP_cons, hrole]

/-- Witness for C2 at a concrete store, state, and failing stream. -/
theorem C2_stream_failure_no_commit_witness :
    WF wStore ∧
    ∃ s' st2 d,
      chatTurn wStore wState ("ok".toList) (.failure ["ab".toList]) 3 4 = .ok (s', st2)
      ∧ loadChat s' wState.current_chat_id = .ok (some d)
      ∧ d.messages = wState.messages ++ [Message.mk roleUser ("ok".toList)]
      ∧ d.messages.countP (fun m => m.role == roleAssistant)
          = wState.messages.countP (fun m => m.role == roleAssistant) :=
  ⟨by decide, C2_stream_failure_no_commit wStore wState ("ok".toList) ["ab".toList] 3 4 (by decide)⟩

/-- C6 (amended): every sentinel occurrence embedded in marker-free text
(no '<' in the surroundings) is removed by the per-fragment cleanup, and the
committed message is the surrounding text intact, trimmed of surrounding
whitespace and free of every sentinel.  (Absence is not guaranteed for all
fragment sequences: a replacement can assemble a new marker, see the
counterexample.) -/
theorem C6_sentinel_strip (a b m : Str) (hm : m ∈ sentinelToks) (ha : noLT a) (hb : noLT b) :
    cleanChunk (a ++ m ++ b) = a ++ b
    ∧ committedText [a ++ m ++ b] = trimStr (a ++ b)
    ∧ ∀ t ∈ sentinelToks, containsTok t (committedText [a ++ m ++ b]) = false := by
  have hab : noLT (a ++ b) := noLT_append ha hb
  have hclean : cleanChunk (a ++ m ++ b) = a ++ b := cleanChunk_single m hm ha hb
  have hacc : accumulateClean [a ++ m ++ b] = cleanChunk (a ++ m ++ b) := by
    simp [accumulateClean]
  have hcommit : committedText [a ++ m ++ b] = trimStr (a ++ b) := by
    unfold committedText finalClean
    rw [hacc, hclean, cleanChunk_noLT hab]
  refine ⟨hclean, hcommit, ?_⟩
  intro t ht
  rw [hcommit]
  have htrim : noLT (trimStr (a ++ b)) := noLT_trimStr hab
  simp only [sentinelToks, List.mem_cons, List.not_mem_nil, or_false] at ht
  rcases ht with rfl | rfl | rfl | rfl
  · rw [tokS_cons]; exact containsTok_eq_false _ _ htrim
  · rw [tokImStart_cons]; exact containsTok_eq_false _ _ htrim
  · rw [tokImEnd_cons]; exact containsTok_eq_false _ _ htrim
  · rw [tokOut_cons]; exact containsTok_eq_false _ _ htrim

/-- C6 counterexample: the fragments "<", "<|im_", "end|>s>" contain no whole
sentinel, but the final replacement pass removes "<|im_end|>" and thereby
assembles "<s>", so the committed assistant message is exactly the sentinel
"<s>" — the claim that sentinels are absent from every final committed
message is false on this input. -/
theorem C6_sentinel_counterexample :
    tokS ∈ sentinelToks
    ∧ committedText ["<".toList, "<|im_".toList, "end|>s>".toList] = tokS
    ∧ containsTok tokS (committedText ["<".toList, "<|im_".toList, "end|>s>".toList]) = true :=
  ⟨by decide, by decide, by decide⟩

/-- Witness for the amended C6 at a concrete sentinel and surroundings. -/
theorem C6_sentinel_strip_witness :
    tokImEnd ∈ sentinelToks ∧ noLT (" Hello".toList) ∧ noLT (" world ".toList) ∧
    (cleanChunk (" Hello".toList ++ tokImEnd ++ " world ".toList)
        = " Hello".toList ++ " world ".toList
      ∧ committedText [" Hello".toList ++ tokImEnd ++ " world ".toList]
          = trimStr (" Hello".toList ++ " world ".toList)
      ∧ ∀ t ∈ sentinelToks,
          containsTok t (committedText [" Hello".toList ++ tokImEnd ++ " world ".toList]) = false) :=
  ⟨by decide, by decide, by decide,
    C6_sentinel_strip (" Hello".toList) (" world ".toList) tokImEnd
      (by decide) (by decide) (by decide)⟩

/-- C8 (amended): load of a missing id yields the not-found signal `None`;
load of a record that exists but fails to parse raises — an outcome distinct
from not-found — but no caller catches it, so a corrupt most-recent record
terminates session initialization with the propagated error. -/
theorem C8_load_outcomes (s : Store) (id : Str) :
    (findEntry s id = none → loadChat s id = .ok none)
    ∧ (∀ e, findEntry s id = some e → e.content = .corrupt → loadChat s id = .error ())
    ∧ (∀ e d, findEntry s id = some e → e.content = .good d → loadChat s id = .ok (some d))
    ∧ (∀ freshId e rest, getAllChats s = e :: rest → e.content = .corrupt →
        (s.map Entry.id).Nodup → initSession s freshId = .error ()) := by
  refine ⟨?_, ?_, ?_, ?_⟩
  · intro h; simp [loadChat, h]
  · intro e h hc; simp [loadChat, h, hc]
  · intro e d h hc; simp [loadChat, h, hc]
  · intro fid e rest hsort hc hnd
    have hmem : e ∈ s := by
      have : e ∈ getAllChats s := by rw [hsort]; exact List.mem_cons_self e rest
      exact mem_getAllChats.mp this
    have hfind : findEntry s e.id = some e := findEntry_self hnd hmem
    have hload : loadChat s e.id = .error () := by simp [loadChat, hfind, hc]
    simp [initSession, hsort, hload]

/-- C8 counterexample: a store whose only record is corrupt — `load_chat`
raises (it does not return a typed outcome), and the uncaught exception
terminates the session-initialization flow, contrary to the claim that the
corrupt outcome does not terminate the session. -/
theorem C8_corrupt_counterexample :
    loadChat wCorruptStore ("x".toList) = .error ()
    ∧ initSession wCorruptStore ("f".toList) = .error () :=
  ⟨rfl, rfl⟩

/-- Witness for the amended C8: the three load outcomes and the aborted
initialization, at concrete stores. -/
theorem C8_load_outcomes_witness :
    loadChat wCorruptStore ("y".toList) = .ok none
    ∧ loadChat wStore wIdA = .ok (some wDataA)
    ∧ initSession wCorruptStore ("g".toList) = .error () := by
  refine ⟨?_, ?_, ?_⟩
  · exact (C8_load_outcomes wCorruptStore ("y".toList)).1 (by decide)
  · exact (C8_load_outcomes wStore wIdA).2.2.1 wEntryA wDataA (by decide) (by decide)
  · exact (C8_load_outcomes wCorruptStore ("x".toList)).2.2.2 ("g".toList)
      (Entry.mk ("x".toList) FileContent.corrupt 5) [] (by decide) (by decide) (by decide)

/-- C5: `get_all_chats` enumerates the stored conversations sorted by
modification time, newest first, reflecting the storage state at call time;
in particular saves at times t1 < t2 < t3 for ids A, B, C enumerate as
[C, B, A]. -/
theorem C5_list_ordering :
    (∀ s : Store, (getAllChats s).Perm s ∧ (getAllChats s).Sorted entGE)
    ∧ ∀ (a b c : Str) (ma mb mc : List Message) (ta tb tc : Option Str) (t1 t2 t3 : Nat),
        a ≠ b → a ≠ c → b ≠ c → t1 < t2 → t2 < t3 →
        ∃ s1 s2 s3,
          saveChat [] a ma ta t1 = .ok s1
          ∧ saveChat s1 b mb tb t2 = .ok s2
          ∧ saveChat s2 c mc tc t3 = .ok s3
          ∧ (getAllChats s3).map Entry.id = [c, b, a] := by
  constructor
  · intro s
    exact ⟨getAllChats_perm s, getAllChats_sorted s⟩
  · intro a b c ma mb mc ta tb tc t1 t2 t3 hab hac hbc h12 h23
    have hba : (a == b) = false := beq_eq_false_iff_ne.mpr hab
    have hca : (a == c) = false := beq_eq_false_iff_ne.mpr hac
    have hcb : (b == c) = false := beq_eq_false_iff_ne.mpr hbc
    refine ⟨[Entry.mk a (.good (ChatData.mk a (resolveTitle ta ma) ma t1 t1)) t1],
      [Entry.mk a (.good (ChatData.mk a (resolveTitle ta ma) ma t1 t1)) t1,
       Entry.mk b (.good (ChatData.mk b (resolveTitle tb mb) mb t2 t2)) t2],
      [Entry.mk a (.good (ChatData.mk a (resolveTitle ta ma) ma t1 t1)) t1,
       Entry.mk b (.good (ChatData.mk b (resolveTitle tb mb) mb t2 t2)) t2,
       Entry.mk c (.good (ChatData.mk c (resolveTitle tc mc) mc t3 t3)) t3],
      rfl, ?_, ?_, ?_⟩
    · have hfb : findEntry [Entry.mk a (.good (ChatData.mk a (resolveTitle ta ma) ma t1 t1)) t1] b
          = none := by
        apply findEntry_eq_none_iff.mpr
        intro x hx
        rw [List.mem_singleton] at hx
        subst hx
        exact hab
      simp only [saveChat, hfb]
      rfl
    · have hfc : findEntry
          [Entry.mk a (.good (ChatData.mk a (resolveTitle ta ma) ma t1 t1)) t1,
           Entry.mk b (.good (ChatData.mk b (resolveTitle tb mb) mb t2 t2)) t2] c = none := by
        apply findEntry_eq_none_iff.mpr
        intro x hx
        rcases List.mem_cons.mp hx with rfl | hx2
        · exact hac
        · rw [List.mem_singleton] at hx2
          subst hx2
          exact hbc
      simp only [saveChat, hfc]
      rfl
    · have hg1 : ¬ entGE (Entry.mk b (.good (ChatData.mk b (resolveTitle tb mb) mb t2 t2)) t2)
          (Entry.mk c (.good (ChatData.mk c (resolveTitle tc mc) mc t3 t3)) t3) := by
        simp only [entGE]
        omega
      have hg2 : ¬ entGE (Entry.mk a (.good (ChatData.mk a (resolveTitle ta ma) ma t1 t1)) t1)
          (Entry.mk c (.good (ChatData.mk c (resolveTitle tc mc) mc t3 t3)) t3) := by
        simp only [entGE]
        omega
      have hg3 : ¬ entGE (Entry.mk a (.good (ChatData.mk a (resolveTitle ta ma) ma t1 t1)) t1)
          (Entry.mk b (.good (ChatData.mk b (resolveTitle tb mb) mb t2 t2)) t2) := by
        simp only [entGE]
        omega
      simp [getAllChats, List.insertionSort, List.orderedInsert, hg1, hg2, hg3]

/-- Witness for C5 at three concrete ids and times. -/
theorem C5_list_ordering_witness :
    ∃ s1 s2 s3,
      saveChat [] ("a".toList) [] none 1 = .ok s1
      ∧ saveChat s1 ("b".toList) [] none 2 = .ok s2
      ∧ saveChat s2 ("c".toList) [] none 3 = .ok s3
      ∧ (getAllChats s3).map Entry.id = ["c".toList, "b".toList, "a".toList] :=
  C5_list_ordering.2 ("a".toList) ("b".toList) ("c".toList) [] [] [] none none none 1 2 3
    (by decide) (by decide) (by decide) (by decide) (by decide)

/-- C10: at the end of an interaction cycle with a non-empty active message
list, the auto-save block re-persists the active conversation unconditionally
with fresh `updated_at` and modification time; when the save time is later
than every other record's modification time, the active conversation is the
first entry of the subsequent `get_all_chats` enumeration. -/
theorem C10_autosave_freshest (s : Store) (st : AppState) (now : Nat) (hWF : WF s)
    (hne : st.messages ≠ []) (hlt : ∀ e ∈ s, e.id ≠ st.current_chat_id → e.mtime < now) :
    ∃ s' d rest, autoSave s st now = .ok s'
      ∧ findEntry s' st.current_chat_id = some (Entry.mk st.current_chat_id (.good d) now)
      ∧ d.updated_at = now ∧ d.messages = st.messages ∧ d.title = st.chat_title
      ∧ getAllChats s' = Entry.mk st.current_chat_id (.good d) now :: rest := by
  obtain ⟨s', hsave, hWF', hfind', hmem⟩ :=
    saveChat_ok hWF st.current_chat_id st.messages (some st.chat_title) now
  have hauto : autoSave s st now = .ok s' := by
    rw [autoSave_eq hne]
    exact hsave
  have hnmem : savedEntry s st.current_chat_id st.messages (some st.chat_title) now ∈ s' :=
    (hmem _).mpr (Or.inr rfl)
  cases hsort : getAllChats s' with
  | nil =>
    exfalso
    have := mem_getAllChats.mpr hnmem
    rw [hsort] at this
    cases this
  | cons h rest =>
    have hhmem : h ∈ s' := by
      apply mem_getAllChats.mp
      rw [hsort]
      exact List.mem_cons_self h rest
    have hdom : entGE h (savedEntry s st.current_chat_id st.messages (some st.chat_title) now) := by
      have hsorted := getAllChats_sorted s'
      rw [hsort] at hsorted
      have hn' : savedEntry s st.current_chat_id st.messages (some st.chat_title) now
          ∈ h :: rest := by
        rw [← hsort]
        exact mem_getAllChats.mpr hnmem
      rcases List.mem_cons.mp hn' with heq | hin
      · rw [heq]
        exact Nat.le_refl _
      · exact List.rel_of_sorted_cons hsorted _ hin
    have hid : h.id = st.current_chat_id := by
      by_contra hne2
      rcases (hmem h).mp hhmem with ⟨hmem2, hne3⟩ | rfl
      · have hlt2 := hlt h hmem2 hne3
        have h2 : now ≤ h.mtime := hdom
        omega
      · exact hne2 rfl
    have hh : h = savedEntry s st.current_chat_id st.messages (some st.chat_title) now :=
      entry_unique hWF'.1 hhmem hnmem (by rw [hid]; rfl)
    subst hh
    refine ⟨s', savedData s st.current_chat_id st.messages (some st.chat_title) now, rest,
      hauto, hfind', rfl, rfl, rfl, hsort⟩

/-- Witness for C10: a store with one other, older record. -/
theorem C10_autosave_freshest_witness :
    WF wStore2 ∧
    ∃ s' d rest, autoSave wStore2 wState 9 = .ok s'
      ∧ findEntry s' wState.current_chat_id = some (Entry.mk wState.current_chat_id (.good d) 9)
      ∧ d.updated_at = 9 ∧ d.messages = wState.messages ∧ d.title = wState.chat_title
      ∧ getAllChats s' = Entry.mk wState.current_chat_id (.good d) 9 :: rest :=
  ⟨by decide, C10_autosave_freshest wStore2 wState 9 (by decide) (by decide) (by decide)⟩

/-- C3: deleting the active conversation deletes its record, and the handler
then makes active the most-recently-modified remaining conversation when one
exists (its persisted record loads and becomes the working state), or a
freshly created empty placeholder conversation when the deleted one was the
only record; the system is never left without an active conversation. -/
theorem C3_delete_active (s : Store) (st : AppState) (freshId : Str) (hWF : WF s)
    (_hact : st.current_chat_id ∈ s.map Entry.id) :
    ∃ s' st2, deleteHandler s st st.current_chat_id freshId = .ok (s', st2)
      ∧ s' = eraseStore s st.current_chat_id
      ∧ ((∀ e ∈ s, e.id = st.current_chat_id) →
          st2.current_chat_id = freshId ∧ st2.messages = [] ∧ st2.chat_title = newChatTitle)
      ∧ ((∃ e ∈ s, e.id ≠ st.current_chat_id) →
          ∃ e ∈ s, e.id ≠ st.current_chat_id
            ∧ st2.current_chat_id = e.id
            ∧ (∀ x ∈ s, x.id ≠ st.current_chat_id → x.mtime ≤ e.mtime)
            ∧ ∃ d, loadChat s' st2.current_chat_id = .ok (some d)
                ∧ st2.messages = d.messages) := by
  cases hF : (getAllChats s).filter (fun e => !(e.id == st.current_chat_id)) with
  | nil =>
    refine ⟨eraseStore s st.current_chat_id, AppState.mk freshId [] newChatTitle, ?_, rfl,
      ?_, ?_⟩
    · simp [deleteHandler, deleteChat_eq, hF]
    · intro _
      exact ⟨rfl, rfl, rfl⟩
    · rintro ⟨e, he, hne⟩
      exfalso
      have heF : e ∈ (getAllChats s).filter (fun x => !(x.id == st.current_chat_id)) :=
        List.mem_filter.mpr ⟨mem_getAllChats.mpr he, by simp [beq_eq_false_iff_ne.mpr hne]⟩
      rw [hF] at heF
      cases heF
  | cons e rest =>
    have heF : e ∈ (getAllChats s).filter (fun x => !(x.id == st.current_chat_id)) := by
      rw [hF]
      exact List.mem_cons_self e rest
    have he1 := List.mem_filter.mp heF
    have hes : e ∈ s := mem_getAllChats.mp he1.1
    have hene : e.id ≠ st.current_chat_id := by
      have hb : (e.id == st.current_chat_id) = false := by
        have := he1.2
        cases hv : (e.id == st.current_chat_id) with
        | true => rw [hv] at this; exact absurd this (by simp)
        | false => rfl
      exact beq_eq_false_iff_ne.mp hb
    have hWFe := WF_eraseStore hWF st.current_chat_id
    have hee : e ∈ eraseStore s st.current_chat_id := by
      unfold eraseStore
      exact List.mem_filter.mpr ⟨hes, by simp [beq_eq_false_iff_ne.mpr hene]⟩
    have hfindE : findEntry (eraseStore s st.current_chat_id) e.id = some e :=
      findEntry_self hWFe.1 hee
    obtain ⟨d, hd, hdid⟩ := WF_good hWF hes
    have hload : loadChat (eraseStore s st.current_chat_id) e.id = .ok (some d) :=
      loadChat_of_findEntry_good hfindE hd
    refine ⟨eraseStore s st.current_chat_id, AppState.mk d.chat_id d.messages d.title, ?_, rfl,
      ?_, ?_⟩
    · simp [deleteHandler, deleteChat_eq, hF, hload]
    · intro hall
      exact absurd (hall e hes) hene
    · intro _
      refine ⟨e, hes, hene, hdid, ?_, d, ?_, rfl⟩
      · intro x hx hxne
        have hxF : x ∈ (getAllChats s).filter (fun y => !(y.id == st.current_chat_id)) :=
          List.mem_filter.mpr ⟨mem_getAllChats.mpr hx, by simp [beq_eq_false_iff_ne.mpr hxne]⟩
        rw [hF] at hxF
        rcases List.mem_cons.mp hxF with rfl | hxr
        · exact Nat.le_refl _
        · have hs2 : List.Pairwise entGE
              ((getAllChats s).filter (fun y => !(y.id == st.current_chat_id))) :=
            List.Pairwise.filter _ (getAllChats_sorted s)
          rw [hF] at hs2
          exact List.rel_of_sorted_cons hs2 x hxr
      · show loadChat (eraseStore s st.current_chat_id) d.chat_id = .ok (some d)
        rw [hdid]
        exact hload

/-- Witness for C3: deleting the active conversation of a two-record store
makes the other, most recent, record active. -/
theorem C3_delete_active_witness :
    WF wStore2 ∧ wState.current_chat_id ∈ wStore2.map Entry.id ∧
    ∃ s' st2, deleteHandler wStore2 wState wState.current_chat_id wIdB = .ok (s', st2)
      ∧ s' = eraseStore wStore2 wState.current_chat_id
      ∧ ((∀ e ∈ wStore2, e.id = wState.current_chat_id) →
          st2.current_chat_id = wIdB ∧ st2.messages = [] ∧ st2.chat_title = newChatTitle)
      ∧ ((∃ e ∈ wStore2, e.id ≠ wState.current_chat_id) →
          ∃ e ∈ wStore2, e.id ≠ wState.current_chat_id
            ∧ st2.current_chat_id = e.id
            ∧ (∀ x ∈ wStore2, x.id ≠ wState.current_chat_id → x.mtime ≤ e.mtime)
            ∧ ∃ d, loadChat s' st2.current_chat_id = .ok (some d)
                ∧ st2.messages = d.messages) :=
  ⟨by decide, by decide, C3_delete_active wStore2 wState wIdB (by decide) (by decide)⟩
